import Mathlib

/-!
Verification of the modelsafe metadata registry (src/association.ts and the
metadata module).  The registry stores model-level options, attribute options,
association options and per-attribute validation lists as reflection metadata
keyed by a model constructor, and resolves them into property descriptors.

The embedding models JavaScript objects as insertion-ordered association lists
(`String` keys, first occurrence wins on lookup, in-place update on write),
`Reflect` metadata as per-constructor records of `Option`-valued slots
(`none` means the metadata key was never defined), and the runtime errors the
code can raise (spreading `undefined` into an array literal, reading
`.prototype` of a function that has none) as `Except` errors.  Partial option
records are records of `Option` fields, where `none` means the key is absent;
this matches both object spread (a present key overrides) and lodash `merge`
(an absent or undefined source field leaves the destination field intact).
Class inheritance of metadata is out of scope: each constructor is modelled
with its own single metadata slot, which is how every claim exercises it.
-/

namespace Modelsafe

/-- Runtime errors of the JavaScript host that this module can raise. -/
inductive JsError
  | typeError
deriving DecidableEq

/-- Primitive JavaScript values, used for open option fields such as
`defaultValue` and the free-form options of a validation entry. -/
inductive JsValue
  | str (s : String)
  | num (n : Int)
  | boolean (b : Bool)
  | null
deriving DecidableEq

/-- Lookup in an insertion-ordered association list: the first binding of the
key wins, mirroring property lookup on a JavaScript object. -/
def mapGet {κ α : Type} [DecidableEq κ] (m : List (κ × α)) (k : κ) : Option α :=
  match m with
  | [] => none
  | (k', v) :: t => if k' = k then some v else mapGet t k

/-- Write to an insertion-ordered association list: an existing binding is
replaced in place (keeping its position), a new key is appended at the end,
mirroring property assignment on a JavaScript object. -/
def mapSet {κ α : Type} [DecidableEq κ] (m : List (κ × α)) (k : κ) (v : α) : List (κ × α) :=
  match m with
  | [] => [(k, v)]
  | (k', v') :: t => if k' = k then (k', v) :: t else (k', v') :: mapSet t k v

/-- A plain JavaScript object with string keys, as an insertion-ordered map. -/
abbrev JsObj (α : Type) : Type := List (String × α)

/-- Object spread `\x7b ...a, ...b \x7d`: every own property of `b` is assigned
over a copy of `a`, in `b`'s enumeration order. -/
def spreadObj {α : Type} (a b : JsObj α) : JsObj α :=
  b.foldl (fun acc kv => mapSet acc kv.1 kv.2) a

/-- Classification of an ASCII character for the word splitter behind
lodash `camelCase`. -/
inductive CharKind
  | upper
  | lower
  | digit
  | other
deriving DecidableEq

/-- Classify one character. -/
def charKind (c : Char) : CharKind :=
  if c.isUpper then CharKind.upper
  else if c.isLower then CharKind.lower
  else if c.isDigit then CharKind.digit
  else CharKind.other

/-- Whether a character of kind `cur` continues the current word, given the
kind of the previous character and of the next one.  An upper-case run breaks
before its last letter when a lower-case letter follows (as in FOOBar), a
lower-to-upper transition and any digit/letter transition start a new word. -/
def sameWord (prev cur : CharKind) (next : Option CharKind) : Bool :=
  match prev, cur with
  | CharKind.upper, CharKind.upper => next != some CharKind.lower
  | CharKind.upper, CharKind.lower => true
  | CharKind.lower, CharKind.lower => true
  | CharKind.digit, CharKind.digit => true
  | _, _ => false

/-- Split a character list into camel/snake words.  `cur` is the current word,
reversed.  This models the word splitting lodash performs for `camelCase` on
ASCII identifier input. -/
def wordsAux : List Char → List Char → List (List Char)
  | cur, [] => if cur.isEmpty then [] else [cur.reverse]
  | cur, c :: rest =>
    match charKind c with
    | CharKind.other =>
      if cur.isEmpty then wordsAux [] rest
      else cur.reverse :: wordsAux [] rest
    | k =>
      match cur with
      | [] => wordsAux [c] rest
      | p :: _ =>
        if sameWord (charKind p) k ((rest.head?).map charKind) then
          wordsAux (c :: cur) rest
        else
          cur.reverse :: wordsAux [c] rest

/-- Lower-case a word, as lodash `camelCase` does to every word. -/
def lowerWord (w : List Char) : List Char := w.map Char.toLower

/-- Upper-case the first character of a word. -/
def capitalizeWord (w : List Char) : List Char :=
  match w with
  | [] => []
  | c :: t => c.toUpper :: t

/-- Model of lodash `_.camelCase` restricted to ASCII input: split into words,
lower-case each word, then capitalize every word but the first and join. -/
def camelCase (s : String) : String :=
  match (wordsAux [] s.toList).map lowerWord with
  | [] => ""
  | w :: t => String.mk (w ++ (t.map capitalizeWord).flatten)

/-- A model constructor (a JavaScript class/function used as a model type).
`id` is its identity as a metadata key, `name` its declared identifier
(`Function.name`, empty when absent), `srcString` its `toString()` rendering
(used by the es5 polyfill in `guessModelName`), and `hasPrototype` whether
`ctor.prototype` is an object (arrow/bound functions have none; reading
metadata through `ctor.prototype` then throws a TypeError). -/
structure Ctor where
  id : Nat
  name : String
  srcString : String
  hasPrototype : Bool
deriving DecidableEq

/-- The association link kinds, from the `AssociationType` enum. -/
inductive AssociationType
  | HAS_ONE
  | HAS_MANY
  | BELONGS_TO
  | BELONGS_TO_MANY
deriving DecidableEq

/-- Modelled from the spec: attribute.ts is not in the source tree.  The spec
only passes an attribute's `AttributeType` through opaquely, so it is an
opaque tag. -/
structure AttributeType where
  tag : Nat
deriving DecidableEq

/-- An association target: either a direct model constructor reference or a
zero-argument resolver function that lazily yields one (the forward-reference
form of `AssociationTarget`). -/
inductive AssociationTarget
  | direct (c : Ctor)
  | deferred (f : Unit → Ctor)

/-- Merge one field of two partial option records: the source field wins when
it is present, otherwise the destination field is kept.  This is the per-field
behaviour of both object spread and lodash `merge` (which skips `undefined`
source fields). -/
def overrideField {α : Type} (old new : Option α) : Option α :=
  match new with
  | some v => some v
  | none => old

/-- A partial `AttributeOptions` record: `none` means the field is absent. -/
structure AttributeOptions where
  type : Option AttributeType := none
  defaultValue : Option JsValue := none
  readOnly : Option Bool := none
  optional : Option Bool := none
  primary : Option Bool := none
  unique : Option Bool := none
deriving DecidableEq

/-- The empty attribute options record. -/
def AttributeOptions.empty : AttributeOptions := {}

/-- Lodash deep merge of two attribute option records, field by field; absent
source fields leave the destination intact. -/
def mergeAttributeOptions (old new : AttributeOptions) : AttributeOptions :=
  { type := overrideField old.type new.type
    defaultValue := overrideField old.defaultValue new.defaultValue
    readOnly := overrideField old.readOnly new.readOnly
    optional := overrideField old.optional new.optional
    primary := overrideField old.primary new.primary
    unique := overrideField old.unique new.unique }

/-- A partial `AssociationOptions` record. -/
structure AssociationOptions where
  type : Option AssociationType := none
  target : Option AssociationTarget := none

/-- The empty association options record. -/
def AssociationOptions.empty : AssociationOptions := {}

/-- Lodash deep merge of two association option records (targets are function
or constructor values and are assigned wholesale when present). -/
def mergeAssociationOptions (old new : AssociationOptions) : AssociationOptions :=
  { type := overrideField old.type new.type
    target := overrideField old.target new.target }

/-- Modelled from the spec: validation.ts is not in the source tree.  A
validation entry pairs a callback (opaque: only its identity matters here)
with optional free-form options, as built by the `validate` decorator. -/
structure Validation where
  cb : Nat
  options : Option JsValue := none
deriving DecidableEq

/-- Modelled from the spec: model.ts is not in the source tree.  `ModelOptions`
is a record with an optional `name` plus open extension fields (kept apart
from `name` in `extras`). -/
structure ModelOptions where
  name : Option String := none
  extras : JsObj JsValue := []
deriving DecidableEq

/-- The empty model options record. -/
def ModelOptions.empty : ModelOptions := {}

/-- Object spread of one model options record over another. -/
def spreadModelOptions (a b : ModelOptions) : ModelOptions :=
  { name := overrideField a.name b.name
    extras := spreadObj a.extras b.extras }

/-- The reflection metadata attached to one model constructor: one slot per
metadata key, `none` when that key was never defined.  Attribute validations
are keyed per property, and each property key has its own defined/undefined
slot. -/
structure TypeMeta where
  modelOptions : Option ModelOptions := none
  attrs : Option (JsObj AttributeOptions) := none
  assocs : Option (JsObj AssociationOptions) := none
  attrValidations : List (String × List Validation) := []

/-- Metadata of a constructor nothing was ever declared on. -/
def TypeMeta.empty : TypeMeta := {}

/-- The global metadata store: metadata records keyed by constructor identity. -/
abbrev Store : Type := List (Nat × TypeMeta)

/-- Read the metadata record of a constructor (empty when never touched). -/
def getMeta (s : Store) (i : Nat) : TypeMeta := (mapGet s i).getD TypeMeta.empty

/-- Replace the metadata record of a constructor. -/
def setMeta (s : Store) (i : Nat) (m : TypeMeta) : Store := mapSet s i m

/-- `guessModelName`: camelCase of the constructor name, falling back to
parsing `ctor.toString()` when `Function.name` is absent: drop the prefix
"function " (9 characters) and keep what precedes the first parenthesis
(`substr(0, indexOf)` yields the empty string when there is none). -/
def guessModelName (ctor : Ctor) : String :=
  let name :=
    if ctor.name ≠ "" then ctor.name
    else
      let str := ctor.srcString.toList.drop 9
      if str.contains '(' then String.mk (str.takeWhile (fun c => c != '(')) else ""
  camelCase name

/-- `hasModelOptions`: probe for the model options metadata key on
`ctor.prototype`; the try/catch absorbs the TypeError raised when the
constructor has no prototype, returning false. -/
def hasModelOptions (s : Store) (ctor : Ctor) : Bool :=
  if ctor.hasPrototype then ((getMeta s ctor.id).modelOptions).isSome
  else false

/-- `defineModelOptions`: spread the new options over the previously stored
ones (spreading undefined metadata contributes nothing) and store the merged
record.  Reading `ctor.prototype` on a prototype-less function throws. -/
def defineModelOptions (s : Store) (ctor : Ctor) (options : ModelOptions) :
    Except JsError Store :=
  if ctor.hasPrototype then
    let m := getMeta s ctor.id
    let merged := spreadModelOptions (m.modelOptions.getD ModelOptions.empty) options
    Except.ok (setMeta s ctor.id { m with modelOptions := some merged })
  else Except.error JsError.typeError

/-- One step of `_.merge(\x7b ...prior \x7d, \x7b [key]: options \x7d)`: the
single source key is deep-merged into the copied destination object; a fresh
key appends a copy of `options` (merging into an empty record). -/
def mergeAttrObj (p : JsObj AttributeOptions) (k : String) (o : AttributeOptions) :
    JsObj AttributeOptions :=
  match mapGet p k with
  | some old => mapSet p k (mergeAttributeOptions old o)
  | none => mapSet p k (mergeAttributeOptions AttributeOptions.empty o)

/-- Association-record analogue of `mergeAttrObj`. -/
def mergeAssocObj (p : JsObj AssociationOptions) (k : String) (o : AssociationOptions) :
    JsObj AssociationOptions :=
  match mapGet p k with
  | some old => mapSet p k (mergeAssociationOptions old o)
  | none => mapSet p k (mergeAssociationOptions AssociationOptions.empty o)

/-- `defineAttribute`: deep-merge the partial options into the attribute map
for the key and store the result.  The decorator target object itself carries
the metadata, so no prototype access happens and the call always succeeds. -/
def defineAttribute (s : Store) (ctor : Ctor) (key : String) (options : AttributeOptions) :
    Store :=
  let m := getMeta s ctor.id
  let attrs := mergeAttrObj (m.attrs.getD []) key options
  setMeta s ctor.id { m with attrs := some attrs }

/-- `defineAssociation`: deep-merge the partial options into the association
map for the key and store the result. -/
def defineAssociation (s : Store) (ctor : Ctor) (key : String) (options : AssociationOptions) :
    Store :=
  let m := getMeta s ctor.id
  let assocs := mergeAssocObj (m.assocs.getD []) key options
  setMeta s ctor.id { m with assocs := some assocs }

/-- `defineAttributeValidation`: the source spreads the existing metadata value
into an array literal before appending.  When no validation metadata exists yet
for (ctor, key), `Reflect.getMetadata` yields `undefined` and the array spread
throws a TypeError, so the entry is never stored; otherwise the entry is
appended after the existing ones. -/
def defineAttributeValidation (s : Store) (ctor : Ctor) (key : String) (v : Validation) :
    Except JsError Store :=
  let m := getMeta s ctor.id
  match mapGet m.attrValidations key with
  | none => Except.error JsError.typeError
  | some vs =>
    Except.ok (setMeta s ctor.id
      { m with attrValidations := mapSet m.attrValidations key (vs ++ [v]) })

/-- `getModelOptions`: a spread copy of the stored options, an empty record
when the metadata key is undefined; reading `.prototype` of a prototype-less
function throws. -/
def getModelOptions (s : Store) (ctor : Ctor) : Except JsError ModelOptions :=
  if ctor.hasPrototype then
    Except.ok ((getMeta s ctor.id).modelOptions.getD ModelOptions.empty)
  else Except.error JsError.typeError

/-- `getAssociations`: a spread copy of the stored association map, empty when
undefined. -/
def getAssociations (s : Store) (ctor : Ctor) : Except JsError (JsObj AssociationOptions) :=
  if ctor.hasPrototype then
    Except.ok ((getMeta s ctor.id).assocs.getD [])
  else Except.error JsError.typeError

/-- `getAttributes`: a spread copy of the stored attribute map, empty when
undefined. -/
def getAttributes (s : Store) (ctor : Ctor) : Except JsError (JsObj AttributeOptions) :=
  if ctor.hasPrototype then
    Except.ok ((getMeta s ctor.id).attrs.getD [])
  else Except.error JsError.typeError

/-- `getAttributeValidations`: the source spreads the stored metadata into an
array literal; when the metadata key is undefined for (ctor, key) the spread
throws a TypeError instead of producing an empty array. -/
def getAttributeValidations (s : Store) (ctor : Ctor) (key : String) :
    Except JsError (List Validation) :=
  if ctor.hasPrototype then
    match mapGet (getMeta s ctor.id).attrValidations key with
    | none => Except.error JsError.typeError
    | some vs => Except.ok vs
  else Except.error JsError.typeError

/-- A resolved model property: an `Attribute` or an `Association` instance,
each carrying the type it was constructed with and its property name.  The
`Attribute` class itself is modelled from the spec (attribute.ts is not in the
source tree): constructed from a type and a name, stringifying to the name,
exactly like the `Association` class that is in the source. -/
inductive Property
  | attribute (type : Option AttributeType) (name : String)
  | association (type : Option AssociationType) (name : String)
deriving DecidableEq

/-- `toString` of a resolved property: its property name. -/
def Property.toString : Property → String
  | Property.attribute _ n => n
  | Property.association _ n => n

/-- Loop body of the attribute pass of `getProperties`:
`props[key] = new Attribute(options.type, key)`. -/
def attrStep (props : JsObj Property) (kv : String × AttributeOptions) : JsObj Property :=
  mapSet props kv.1 (Property.attribute kv.2.type kv.1)

/-- Loop body of the association pass of `getProperties`:
`props[key] = new Association(options.type, key)`. -/
def assocStep (props : JsObj Property) (kv : String × AssociationOptions) : JsObj Property :=
  mapSet props kv.1 (Property.association kv.2.type kv.1)

/-- `getProperties`: fetch attributes then associations, build a fresh map,
writing an `Attribute` per attribute key first and an `Association` per
association key second (a shared key is thus overwritten by the association).
Only `options.type` and the key are read; association targets are never
touched. -/
def getProperties (s : Store) (ctor : Ctor) : Except JsError (JsObj Property) :=
  match getAttributes s ctor with
  | Except.error e => Except.error e
  | Except.ok attrs =>
    match getAssociations s ctor with
    | Except.error e => Except.error e
    | Except.ok assocs => Except.ok (assocs.foldl assocStep (attrs.foldl attrStep []))

/-- The `model` class decorator: define model options with the guessed name,
overridden by any explicitly provided options. -/
def model (options : Option ModelOptions) (ctor : Ctor) (s : Store) : Except JsError Store :=
  defineModelOptions s ctor
    (spreadModelOptions { name := some (guessModelName ctor), extras := [] }
      (options.getD ModelOptions.empty))

/-- The `attr` decorator: spread the extra options, then set `type`. -/
def attr (type : AttributeType) (options : Option AttributeOptions) (ctor : Ctor) (key : String)
    (s : Store) : Store :=
  defineAttribute s ctor key { options.getD AttributeOptions.empty with type := some type }

/-- The `assoc` decorator: spread the extra options, then set `type` and
`target` (the `target` key is present even when the argument was omitted, so
it overrides any target carried by `options` in the literal; lodash merge then
skips it when it is undefined). -/
def assoc (type : AssociationType) (target : Option AssociationTarget)
    (options : Option AssociationOptions) (ctor : Ctor) (key : String) (s : Store) : Store :=
  defineAssociation s ctor key
    { options.getD AssociationOptions.empty with type := some type, target := target }

/-- The `validate` decorator: declare a validation entry for an attribute. -/
def validate (cb : Nat) (options : Option JsValue) (ctor : Ctor) (key : String) (s : Store) :
    Except JsError Store :=
  defineAttributeValidation s ctor key { cb := cb, options := options }

/-- The `defaultValue` decorator. -/
def defaultValue (value : JsValue) (ctor : Ctor) (key : String) (s : Store) : Store :=
  defineAttribute s ctor key { AttributeOptions.empty with defaultValue := some value }

/-- The `readOnly` decorator. -/
def readOnly (ctor : Ctor) (key : String) (s : Store) : Store :=
  defineAttribute s ctor key { AttributeOptions.empty with readOnly := some true }

/-- The `required` decorator. -/
def required (ctor : Ctor) (key : String) (s : Store) : Store :=
  defineAttribute s ctor key { AttributeOptions.empty with optional := some false }

/-- The `optional` decorator. -/
def optional (ctor : Ctor) (key : String) (s : Store) : Store :=
  defineAttribute s ctor key { AttributeOptions.empty with optional := some true }

/-- The `primary` decorator. -/
def primary (ctor : Ctor) (key : String) (s : Store) : Store :=
  defineAttribute s ctor key { AttributeOptions.empty with primary := some true }

/-- The `unique` decorator. -/
def unique (ctor : Ctor) (key : String) (s : Store) : Store :=
  defineAttribute s ctor key { AttributeOptions.empty with unique := some true }

/-- A declaration-store operation, for quantifying over arbitrary further
activity on the registry. -/
inductive Op
  | defModelOptions (ctor : Ctor) (options : ModelOptions)
  | defAttribute (ctor : Ctor) (key : String) (options : AttributeOptions)
  | defAssociation (ctor : Ctor) (key : String) (options : AssociationOptions)
  | defAttrValidation (ctor : Ctor) (key : String) (v : Validation)

/-- Run one operation; a thrown error propagates to the caller and leaves the
store unchanged (the failing operations throw before storing anything). -/
def applyOp (s : Store) : Op → Store
  | Op.defModelOptions ctor o =>
    match defineModelOptions s ctor o with
    | Except.ok s' => s'
    | Except.error _ => s
  | Op.defAttribute ctor k o => defineAttribute s ctor k o
  | Op.defAssociation ctor k o => defineAssociation s ctor k o
  | Op.defAttrValidation ctor k v =>
    match defineAttributeValidation s ctor k v with
    | Except.ok s' => s'
    | Except.error _ => s

/-- Run a sequence of operations left to right. -/
def applyOps (ops : List Op) (s : Store) : Store := ops.foldl applyOp s

/-- A snapshot object handed out by a resolver read: either a model options
copy or a resolved property map.  Both are freshly built by the read and never
referenced from the store afterwards. -/
inductive Snap
  | opts (o : ModelOptions)
  | props (p : JsObj Property)
deriving DecidableEq

/-- The registry together with the snapshot objects it has handed out.  The
heap records each snapshot at the address (index) at which it was allocated. -/
structure RegState where
  store : Store
  heap : List Snap

/-- `getModelOptions` as a heap-allocating read: the spread copy it returns is
a fresh object, modelled by appending a new heap cell and returning its
address. -/
def getModelOptionsS (σ : RegState) (ctor : Ctor) : Except JsError (RegState × Nat) :=
  match getModelOptions σ.store ctor with
  | Except.error e => Except.error e
  | Except.ok o => Except.ok ({ σ with heap := σ.heap ++ [Snap.opts o] }, σ.heap.length)

/-- `getProperties` as a heap-allocating read: the property map it returns is
built from scratch out of fresh `Attribute`/`Association` instances. -/
def getPropertiesS (σ : RegState) (ctor : Ctor) : Except JsError (RegState × Nat) :=
  match getProperties σ.store ctor with
  | Except.error e => Except.error e
  | Except.ok p => Except.ok ({ σ with heap := σ.heap ++ [Snap.props p] }, σ.heap.length)

/-- A declaration operation on the registry state: it rewrites the store by
building new option records (spread/merge copies) and never writes through any
previously returned snapshot, which the source cannot even reach. -/
def applyOpS (σ : RegState) (op : Op) : RegState := { σ with store := applyOp σ.store op }

/-- Run a sequence of operations on the registry state. -/
def applyOpsS (ops : List Op) (σ : RegState) : RegState := ops.foldl applyOpS σ

/-- Forget the target of an association record, keeping everything else. -/
def AssociationOptions.stripTarget (o : AssociationOptions) : AssociationOptions :=
  { o with target := none }

/-- Forget every target in an association map. -/
def stripAssocObj (p : JsObj AssociationOptions) : JsObj AssociationOptions :=
  p.map (fun kv => (kv.1, AssociationOptions.stripTarget kv.2))

/-- Forget every association target in a metadata record. -/
def TypeMeta.stripTargets (m : TypeMeta) : TypeMeta :=
  { m with assocs := m.assocs.map stripAssocObj }

/-- Forget every association target in the whole store.  Two stores with the
same image under this map are identical except for the target values of their
association records. -/
def stripStore (s : Store) : Store :=
  s.map (fun im => (im.1, TypeMeta.stripTargets im.2))

/-- A sample model class, used to instantiate the theorems below on concrete
input. -/
def userCtor : Ctor := { id := 0, name := "UserAccount", srcString := "", hasPrototype := true }

/-- A sample attribute type tag. -/
def attrTypeEx : AttributeType := { tag := 0 }

/-! Basic lemmas about the object model. -/

theorem mapGet_mapSet_self {κ α : Type} [DecidableEq κ] (m : List (κ × α)) (k : κ) (v : α) :
    mapGet (mapSet m k v) k = some v := by
  induction m with
  | nil => simp [mapSet, mapGet]
  | cons kv t ih =>
    obtain ⟨k', v'⟩ := kv
    by_cases h : k' = k
    · simp [mapSet, mapGet, h]
    · simp [mapSet, mapGet, h, ih]

theorem mapGet_mapSet_ne {κ α : Type} [DecidableEq κ] (m : List (κ × α)) (k k' : κ) (v : α)
    (h : k' ≠ k) : mapGet (mapSet m k' v) k = mapGet m k := by
  induction m with
  | nil => simp [mapSet, mapGet, h]
  | cons kv t ih =>
    obtain ⟨k'', v'⟩ := kv
    by_cases h' : k'' = k'
    · subst h'
      simp [mapSet, mapGet, h]
    · by_cases h'' : k'' = k
      · subst h''
        simp [mapSet, mapGet, h']
      · simp [mapSet, mapGet, h', h'', ih]

theorem mem_mapSet {κ α : Type} [DecidableEq κ] (m : List (κ × α)) (k : κ) (v : α)
    (x : κ × α) (hx : x ∈ mapSet m k v) : x = (k, v) ∨ x ∈ m := by
  induction m with
  | nil =>
    simp [mapSet] at hx
    exact Or.inl hx
  | cons kv t ih =>
    obtain ⟨k', v'⟩ := kv
    by_cases h : k' = k
    · subst h
      simp [mapSet] at hx
      rcases hx with h1 | h1
      · exact Or.inl (by simp [h1])
      · exact Or.inr (by simp [h1])
    · simp [mapSet, h] at hx
      rcases hx with h1 | h1
      · exact Or.inr (by simp [h1])
      · rcases ih h1 with h2 | h2
        · exact Or.inl h2
        · exact Or.inr (by simp [h2])

theorem mapGet_mem {κ α : Type} [DecidableEq κ] (m : List (κ × α)) (k : κ) (v : α)
    (h : mapGet m k = some v) : (k, v) ∈ m := by
  induction m with
  | nil => simp [mapGet] at h
  | cons kv t ih =>
    obtain ⟨k', v'⟩ := kv
    by_cases h' : k' = k
    · subst h'
      simp [mapGet] at h
      simp [h]
    · simp [mapGet, h'] at h
      exact List.mem_cons_of_mem _ (ih h)

theorem getMeta_setMeta_self (s : Store) (i : Nat) (m : TypeMeta) :
    getMeta (setMeta s i m) i = m := by
  simp [getMeta, setMeta, mapGet_mapSet_self]

theorem getMeta_setMeta_ne (s : Store) (i j : Nat) (m : TypeMeta) (h : j ≠ i) :
    getMeta (setMeta s j m) i = getMeta s i := by
  simp [getMeta, setMeta, mapGet_mapSet_ne _ _ _ _ h]

/-! Lemmas about the two construction passes of `getProperties`. -/

theorem mem_foldl_attrStep (l : JsObj AttributeOptions) (init : JsObj Property)
    (hinit : ∀ y ∈ init, Property.toString y.2 = y.1) :
    ∀ x ∈ l.foldl attrStep init, Property.toString x.2 = x.1 := by
  induction l generalizing init with
  | nil => exact hinit
  | cons kv t ih =>
    intro x hx
    refine ih (attrStep init kv) ?_ x hx
    intro y hy
    rcases mem_mapSet _ _ _ _ hy with h | h
    · subst h
      rfl
    · exact hinit y h

theorem mem_foldl_assocStep (l : JsObj AssociationOptions) (init : JsObj Property)
    (hinit : ∀ y ∈ init, Property.toString y.2 = y.1) :
    ∀ x ∈ l.foldl assocStep init, Property.toString x.2 = x.1 := by
  induction l generalizing init with
  | nil => exact hinit
  | cons kv t ih =>
    intro x hx
    refine ih (assocStep init kv) ?_ x hx
    intro y hy
    rcases mem_mapSet _ _ _ _ hy with h | h
    · subst h
      rfl
    · exact hinit y h

theorem mapGet_foldl_assocStep_absent :
    ∀ (l : JsObj AssociationOptions) (k : String), (∀ x ∈ l, x.1 ≠ k) →
    ∀ init : JsObj Property, mapGet (l.foldl assocStep init) k = mapGet init k := by
  intro l
  induction l with
  | nil =>
    intro k _ init
    rfl
  | cons kv t ih =>
    intro k h init
    rw [List.foldl_cons, ih k (fun x hx => h x (List.mem_cons_of_mem _ hx))]
    exact mapGet_mapSet_ne _ _ _ _ (h kv (List.mem_cons_self _ _))

theorem mapGet_foldl_assocStep_present :
    ∀ (l : JsObj AssociationOptions) (k : String) (o : AssociationOptions),
    (l.map Prod.fst).Nodup → mapGet l k = some o →
    ∀ init : JsObj Property,
      mapGet (l.foldl assocStep init) k = some (Property.association o.type k) := by
  intro l
  induction l with
  | nil =>
    intro k o _ h init
    simp [mapGet] at h
  | cons kv t ih =>
    intro k o hnd h init
    obtain ⟨k', o'⟩ := kv
    rw [List.map_cons, List.nodup_cons] at hnd
    by_cases hk : k' = k
    · subst hk
      simp [mapGet] at h
      rw [List.foldl_cons,
        mapGet_foldl_assocStep_absent t k'
          (fun x hx hEq => hnd.1 (by
            rw [← hEq]
            show x.1 ∈ List.map Prod.fst t
            exact List.mem_map_of_mem Prod.fst hx))]
      rw [show assocStep init (k', o') = mapSet init k' (Property.association o'.type k') from rfl,
        mapGet_mapSet_self, h]
    · simp only [mapGet, if_neg hk] at h
      rw [List.foldl_cons]
      exact ih k o hnd.2 h _

/-! Lemmas about merging into an attribute map. -/

theorem mapGet_mergeAttrObj_self (p : JsObj AttributeOptions) (k : String) (o : AttributeOptions) :
    mapGet (mergeAttrObj p k o)
        k = some (mergeAttributeOptions ((mapGet p k).getD AttributeOptions.empty) o) := by
  unfold mergeAttrObj
  cases h : mapGet p k with
  | none => simp [mapGet_mapSet_self]
  | some old => simp [mapGet_mapSet_self]

/-! Lemmas about further declaration-store activity: no operation ever removes
the model options metadata of any constructor. -/

theorem getMeta_setMeta_isSome (s : Store) (j i : Nat) (m : TypeMeta)
    (hm : m.modelOptions = (getMeta s j).modelOptions)
    (h : ((getMeta s i).modelOptions).isSome = true) :
    ((getMeta (setMeta s j m) i).modelOptions).isSome = true := by
  by_cases hi : j = i
  · subst hi
    rw [getMeta_setMeta_self, hm]
    exact h
  · rw [getMeta_setMeta_ne _ _ _ _ hi]
    exact h

theorem applyOp_modelOptions_isSome (op : Op) (s : Store) (i : Nat)
    (h : ((getMeta s i).modelOptions).isSome = true) :
    ((getMeta (applyOp s op) i).modelOptions).isSome = true := by
  cases op with
  | defModelOptions ctor o =>
    by_cases hp : ctor.hasPrototype
    · simp only [applyOp, defineModelOptions, hp, if_true]
      by_cases hi : ctor.id = i
      · subst hi
        rw [getMeta_setMeta_self]
        rfl
      · rw [getMeta_setMeta_ne _ _ _ _ hi]
        exact h
    · simp only [applyOp, defineModelOptions, hp, if_false]
      exact h
  | defAttribute ctor k o =>
    exact getMeta_setMeta_isSome _ _ _ _ rfl h
  | defAssociation ctor k o =>
    exact getMeta_setMeta_isSome _ _ _ _ rfl h
  | defAttrValidation ctor k v =>
    simp only [applyOp, defineAttributeValidation]
    cases hmv : mapGet (getMeta s ctor.id).attrValidations k with
    | none => exact h
    | some vs => exact getMeta_setMeta_isSome _ _ _ _ rfl h

theorem applyOps_modelOptions_isSome (ops : List Op) (s : Store) (i : Nat)
    (h : ((getMeta s i).modelOptions).isSome = true) :
    ((getMeta (applyOps ops s) i).modelOptions).isSome = true := by
  induction ops generalizing s with
  | nil => exact h
  | cons op t ih => exact ih _ (applyOp_modelOptions_isSome op s i h)

/-! Lemmas about the snapshot heap: declaration operations never write it. -/

theorem applyOpsS_heap (ops : List Op) (σ : RegState) : (applyOpsS ops σ).heap = σ.heap := by
  induction ops generalizing σ with
  | nil => rfl
  | cons op t ih => exact ih (applyOpS σ op)

theorem getElem?_append_cons {α : Type} : ∀ (l : List α) (a : α) (t : List α),
    (l ++ a :: t)[l.length]? = some a := by
  intro l a t
  induction l with
  | nil => simp
  | cons x xs ih => simpa using ih

/-! Lemmas showing `getProperties` only depends on the store with all
association targets forgotten. -/

theorem getMeta_stripStore (s : Store) (i : Nat) :
    getMeta (stripStore s) i = TypeMeta.stripTargets (getMeta s i) := by
  induction s with
  | nil => rfl
  | cons im t ih =>
    obtain ⟨j, m⟩ := im
    by_cases hj : j = i
    · subst hj
      simp [stripStore, getMeta, mapGet]
    · simp only [stripStore, List.map_cons] at *
      simp only [getMeta, mapGet, if_neg hj]
      exact ih

theorem foldl_assocStep_strip_congr :
    ∀ l1 l2 : JsObj AssociationOptions, stripAssocObj l1 = stripAssocObj l2 →
    ∀ init : JsObj Property, l1.foldl assocStep init = l2.foldl assocStep init := by
  intro l1
  induction l1 with
  | nil =>
    intro l2 h init
    cases l2 with
    | nil => rfl
    | cons kv2 t2 => simp [stripAssocObj] at h
  | cons kv t ih =>
    intro l2 h init
    cases l2 with
    | nil => simp [stripAssocObj] at h
    | cons kv2 t2 =>
      simp only [stripAssocObj, List.map_cons, List.cons.injEq, Prod.mk.injEq] at h
      obtain ⟨⟨hk, ho⟩, ht⟩ := h
      have htype0 := congrArg AssociationOptions.type ho
      have htype : kv.2.type = kv2.2.type := htype0
      have hstep : assocStep init kv = assocStep init kv2 := by
        unfold assocStep
        rw [hk, htype]
      rw [List.foldl_cons, List.foldl_cons, hstep]
      exact ih t2 ht _

theorem getProperties_eq (s : Store) (ctor : Ctor) :
    getProperties s ctor = if ctor.hasPrototype then
      Except.ok (((getMeta s ctor.id).assocs.getD []).foldl assocStep
        (((getMeta s ctor.id).attrs.getD []).foldl attrStep []))
    else Except.error JsError.typeError := by
  unfold getProperties getAttributes getAssociations
  by_cases hp : ctor.hasPrototype <;> simp [hp]

/-! The claims. -/

/-- C1: the claim says `getAttributeValidations(type, key)` returns the
accumulated entries in declaration order and an empty sequence, without
raising, when no validation was ever declared for (type, key).  On any such
(type, key) the code spreads the undefined metadata value into an array
literal, which raises a TypeError instead of yielding an empty array. -/
theorem getAttributeValidations_undeclared_raises (s : Store) (ctor : Ctor) (key : String)
    (h : mapGet (getMeta s ctor.id).attrValidations key = none) :
    getAttributeValidations s ctor key = Except.error JsError.typeError := by
  unfold getAttributeValidations
  by_cases hp : ctor.hasPrototype
  · simp [hp, h]
  · simp [hp]

theorem getAttributeValidations_undeclared_raises_witness :
    getAttributeValidations [] userCtor "email" = Except.error JsError.typeError :=
  getAttributeValidations_undeclared_raises [] userCtor "email" rfl

/-- C2: the claim says declaring V1 then V2 always succeeds and yields the
ordered list [V1, V2], including the very first call for a fresh (type, key).
The appending half is real: when an entry list already exists the new entry is
appended after it (second conjunct).  But the very first call spreads the
undefined metadata value into an array literal and raises a TypeError, so no
entry is ever stored (first conjunct). -/
theorem defineAttributeValidation_first_call_raises (s : Store) (ctor : Ctor) (key : String)
    (v : Validation) :
    (mapGet (getMeta s ctor.id).attrValidations key = none →
      defineAttributeValidation s ctor key v = Except.error JsError.typeError) ∧
    (∀ (vs : List Validation) (s' : Store),
      mapGet (getMeta s ctor.id).attrValidations key = some vs →
      defineAttributeValidation s ctor key v = Except.ok s' →
      mapGet (getMeta s' ctor.id).attrValidations key = some (vs ++ [v])) := by
  constructor
  · intro h
    unfold defineAttributeValidation
    simp [h]
  · intro vs s' h hd
    unfold defineAttributeValidation at hd
    simp [h] at hd
    rw [← hd, getMeta_setMeta_self]
    exact mapGet_mapSet_self _ _ _

theorem defineAttributeValidation_first_call_raises_witness :
    defineAttributeValidation [] userCtor "email" { cb := 1 } = Except.error JsError.typeError :=
  (defineAttributeValidation_first_call_raises [] userCtor "email" { cb := 1 }).1 rfl

/-- C3: on a model type with no declarations at all, `getProperties` returns an
empty mapping, `getModelOptions` an empty options record and `hasModelOptions`
false, and none of the three reads raises: `hasModelOptions` stays false
(its try/catch absorbing the TypeError) even on a foreign prototype-less
function, and the two getters run without error on any constructor that has a
prototype, which every class constructor does. -/
theorem undeclared_type_reads_empty (s : Store) (ctor : Ctor)
    (h : getMeta s ctor.id = TypeMeta.empty) :
    hasModelOptions s ctor = false ∧
    (ctor.hasPrototype = true →
      getProperties s ctor = Except.ok [] ∧
      getModelOptions s ctor = Except.ok ModelOptions.empty) := by
  refine ⟨?_, fun hp => ⟨?_, ?_⟩⟩
  · cases hp : ctor.hasPrototype with
    | false => simp [hasModelOptions, hp]
    | true => simp [hasModelOptions, hp, h, TypeMeta.empty]
  · rw [getProperties_eq]
    simp [hp, h, TypeMeta.empty]
  · unfold getModelOptions
    simp [hp, h, TypeMeta.empty, ModelOptions.empty]

theorem undeclared_type_reads_empty_witness :
    hasModelOptions [] userCtor = false ∧
    getProperties [] userCtor = Except.ok [] ∧
    getModelOptions [] userCtor = Except.ok ModelOptions.empty :=
  ⟨(undeclared_type_reads_empty [] userCtor rfl).1,
    ((undeclared_type_reads_empty [] userCtor rfl).2 rfl).1,
    ((undeclared_type_reads_empty [] userCtor rfl).2 rfl).2⟩

/-- C4: when a type has both an attribute and an association declared under the
same property key, the resolved property map holds an Association (not an
Attribute) at that key: `getProperties` writes all attributes first and all
associations second, so the later association write wins. -/
theorem association_overrides_attribute (s : Store) (ctor : Ctor) (k : String)
    (ao : AttributeOptions) (so : AssociationOptions) (props : JsObj Property)
    (hnd : (((getMeta s ctor.id).assocs.getD []).map Prod.fst).Nodup)
    (_ha : mapGet ((getMeta s ctor.id).attrs.getD []) k = some ao)
    (hs : mapGet ((getMeta s ctor.id).assocs.getD []) k = some so)
    (hp : getProperties s ctor = Except.ok props) :
    mapGet props k = some (Property.association so.type k) := by
  rw [getProperties_eq] at hp
  by_cases hproto : ctor.hasPrototype
  · simp [hproto] at hp
    rw [← hp]
    exact mapGet_foldl_assocStep_present _ _ _ hnd hs _
  · simp [hproto] at hp

theorem association_overrides_attribute_witness :
    mapGet [("item", Property.association (some AssociationType.HAS_ONE) "item")] "item"
      = some (Property.association (some AssociationType.HAS_ONE) "item") :=
  association_overrides_attribute
    (defineAssociation (defineAttribute [] userCtor "item" { type := some attrTypeEx })
      userCtor "item" { type := some AssociationType.HAS_ONE })
    userCtor "item" { type := some attrTypeEx }
    { type := some AssociationType.HAS_ONE } _ (by decide) rfl rfl rfl

/-- C5: `defineAttribute` merges per field with last write wins and keeps
fields the later partial record does not provide.  The stored record after two
declarations is the field-wise merge of the prior record with the two partial
records in order (first conjunct), and the merge resolves every field to the
source field when present and the destination field otherwise — so a field
declared as a by the first record and b by the second resolves to b, a field
only the first record declares survives, and a `type` set earlier is never
cleared by a later partial record without a type (second conjunct). -/
theorem defineAttribute_merge_per_field (s : Store) (ctor : Ctor) (k : String)
    (o1 o2 : AttributeOptions) :
    mapGet ((getMeta (defineAttribute (defineAttribute s ctor k o1) ctor k o2) ctor.id).attrs.getD
        []) k
      = some (mergeAttributeOptions (mergeAttributeOptions
          ((mapGet ((getMeta s ctor.id).attrs.getD []) k).getD AttributeOptions.empty) o1) o2) ∧
    ∀ a b : AttributeOptions,
      (mergeAttributeOptions a b).type = overrideField a.type b.type ∧
      (mergeAttributeOptions a b).defaultValue = overrideField a.defaultValue b.defaultValue ∧
      (mergeAttributeOptions a b).readOnly = overrideField a.readOnly b.readOnly ∧
      (mergeAttributeOptions a b).optional = overrideField a.optional b.optional ∧
      (mergeAttributeOptions a b).primary = overrideField a.primary b.primary ∧
      (mergeAttributeOptions a b).unique = overrideField a.unique b.unique ∧
      (b.type = none → (mergeAttributeOptions a b).type = a.type) ∧
      (∀ t : AttributeType, b.type = some t → (mergeAttributeOptions a b).type = some t) := by
  constructor
  · simp only [defineAttribute, getMeta_setMeta_self]
    simp only [Option.getD_some]
    rw [mapGet_mergeAttrObj_self, mapGet_mergeAttrObj_self]
    simp
  · intro a b
    refine ⟨rfl, rfl, rfl, rfl, rfl, rfl, ?_, ?_⟩
    · intro hb
      simp [mergeAttributeOptions, overrideField, hb]
    · intro t hb
      simp [mergeAttributeOptions, overrideField, hb]

theorem defineAttribute_merge_per_field_witness :
    (mergeAttributeOptions { type := some attrTypeEx } { optional := some false }).type
      = some attrTypeEx :=
  ((defineAttribute_merge_per_field [] userCtor "email" { type := some attrTypeEx }
      { optional := some false }).2
    { type := some attrTypeEx } { optional := some false }).2.2.2.2.2.2.1 rfl

/-- C6: every Property stored in the mapping `getProperties` returns
stringifies to exactly the key it is stored under: both construction passes
store, at key k, an instance constructed with name k, and `toString` returns
that name. -/
theorem resolved_property_name_fidelity (s : Store) (ctor : Ctor) (props : JsObj Property)
    (k : String) (p : Property)
    (h : getProperties s ctor = Except.ok props) (hk : mapGet props k = some p) :
    Property.toString p = k := by
  rw [getProperties_eq] at h
  by_cases hproto : ctor.hasPrototype
  · simp [hproto] at h
    have hmem := mapGet_mem _ _ _ hk
    rw [← h] at hmem
    exact mem_foldl_assocStep _ _
      (mem_foldl_attrStep _ [] (fun y hy => absurd hy (List.not_mem_nil y))) _ hmem
  · simp [hproto] at h

theorem resolved_property_name_fidelity_witness :
    Property.toString (Property.attribute (some attrTypeEx) "email") = "email" :=
  resolved_property_name_fidelity
    (defineAttribute [] userCtor "email" { type := some attrTypeEx }) userCtor
    [("email", Property.attribute (some attrTypeEx) "email")] "email"
    (Property.attribute (some attrTypeEx) "email") rfl rfl

/-- C7: `getProperties` never forces an association target: its result is a
function of the store with every association target forgotten, so two stores
that are identical except for the target values of their association records
(one of which may hold a zero-argument resolver function) resolve to the very
same property mapping. -/
theorem getProperties_independent_of_targets (s1 s2 : Store)
    (h : stripStore s1 = stripStore s2) (ctor : Ctor) :
    getProperties s1 ctor = getProperties s2 ctor := by
  have hmeta : TypeMeta.stripTargets (getMeta s1 ctor.id)
      = TypeMeta.stripTargets (getMeta s2 ctor.id) := by
    rw [← getMeta_stripStore, ← getMeta_stripStore, h]
  have hattrs0 := congrArg TypeMeta.attrs hmeta
  have hattrs : (getMeta s1 ctor.id).attrs = (getMeta s2 ctor.id).attrs := hattrs0
  have hassocs0 := congrArg TypeMeta.assocs hmeta
  have hassocs : ((getMeta s1 ctor.id).assocs).map stripAssocObj
      = ((getMeta s2 ctor.id).assocs).map stripAssocObj := hassocs0
  rw [getProperties_eq, getProperties_eq, hattrs]
  by_cases hp : ctor.hasPrototype
  · simp only [hp, if_true]
    cases ha1 : (getMeta s1 ctor.id).assocs with
    | none =>
      cases ha2 : (getMeta s2 ctor.id).assocs with
      | none => rfl
      | some l2 =>
        rw [ha1, ha2] at hassocs
        simp at hassocs
    | some l1 =>
      cases ha2 : (getMeta s2 ctor.id).assocs with
      | none =>
        rw [ha1, ha2] at hassocs
        simp at hassocs
      | some l2 =>
        rw [ha1, ha2] at hassocs
        simp at hassocs
        simp only [Option.getD_some]
        rw [foldl_assocStep_strip_congr l1 l2 hassocs]
  · simp [hp]

theorem getProperties_independent_of_targets_witness :
    getProperties
        (defineAssociation [] userCtor "owner"
          { type := some AssociationType.BELONGS_TO
            target := some (AssociationTarget.deferred (fun _ => userCtor)) }) userCtor
      = getProperties
        (defineAssociation [] userCtor "owner"
          { type := some AssociationType.BELONGS_TO, target := none }) userCtor :=
  getProperties_independent_of_targets _ _ rfl userCtor

/-- C8: applying the `model` decorator without an explicit name stores, and
`getModelOptions` then reports, a name equal to the camelCase normalization of
the class identifier (e.g. class UserAccount resolves to "userAccount"), while
an explicitly provided name overrides the default: the decorator spreads the
caller's options over a record seeded with the guessed name. -/
theorem model_decorator_names (s : Store) (ctor : Ctor) (opts : Option ModelOptions)
    (s' : Store) (r : ModelOptions)
    (hp : ctor.hasPrototype = true) (hname : ctor.name ≠ "")
    (hm : model opts ctor s = Except.ok s')
    (hg : getModelOptions s' ctor = Except.ok r) :
    ((opts.getD ModelOptions.empty).name = none → r.name = some (camelCase ctor.name)) ∧
    (∀ n : String, (opts.getD ModelOptions.empty).name = some n → r.name = some n) := by
  have hguess : guessModelName ctor = camelCase ctor.name := by
    unfold guessModelName
    rw [if_pos hname]
  unfold model defineModelOptions at hm
  simp only [hp, if_true] at hm
  rw [Except.ok.injEq] at hm
  subst hm
  unfold getModelOptions at hg
  simp only [hp, if_true, getMeta_setMeta_self] at hg
  rw [Except.ok.injEq] at hg
  subst hg
  constructor
  · intro h0
    simp [spreadModelOptions, overrideField, h0, hguess]
  · intro n h0
    simp [spreadModelOptions, overrideField, h0]

theorem model_decorator_names_witness :
    (some "userAccount" : Option String) = some (camelCase "UserAccount") :=
  (model_decorator_names [] userCtor none
      (setMeta [] 0 { modelOptions := some { name := some "userAccount", extras := [] } })
      { name := some "userAccount", extras := [] }
      rfl (by decide) rfl rfl).1 rfl

/-- C9: a resolved descriptor is an independent snapshot.  After
`getModelOptions` hands out the snapshot at address r and `getProperties` the
one at address q, running any further sequence of declaration operations
leaves both snapshot cells exactly as resolved: the operations rebuild store
records but never write a handed-out snapshot, so the new declarations are
observable only by resolving again. -/
theorem resolved_snapshots_immutable (σ σ1 σ2 : RegState) (ctor : Ctor) (r q : Nat)
    (o : ModelOptions) (p : JsObj Property) (ops : List Op)
    (h1 : getModelOptionsS σ ctor = Except.ok (σ1, r))
    (h2 : getPropertiesS σ1 ctor = Except.ok (σ2, q))
    (ho : getModelOptions σ.store ctor = Except.ok o)
    (hpr : getProperties σ1.store ctor = Except.ok p) :
    ((applyOpsS ops σ2).heap)[r]? = some (Snap.opts o) ∧
    ((applyOpsS ops σ2).heap)[q]? = some (Snap.props p) := by
  unfold getModelOptionsS at h1
  rw [ho] at h1
  rw [Except.ok.injEq, Prod.mk.injEq] at h1
  obtain ⟨hσ1, hr⟩ := h1
  unfold getPropertiesS at h2
  rw [hpr] at h2
  rw [Except.ok.injEq, Prod.mk.injEq] at h2
  obtain ⟨hσ2, hq⟩ := h2
  subst hσ1
  subst hσ2
  subst hr
  subst hq
  rw [applyOpsS_heap]
  constructor
  · show ((σ.heap ++ [Snap.opts o]) ++ [Snap.props p])[σ.heap.length]? = some (Snap.opts o)
    rw [List.append_assoc]
    exact getElem?_append_cons σ.heap (Snap.opts o) _
  · exact getElem?_append_cons (σ.heap ++ [Snap.opts o]) (Snap.props p) []

theorem resolved_snapshots_immutable_witness :
    ((applyOpsS [Op.defAttribute userCtor "email" { type := some attrTypeEx }]
        { store := setMeta [] 0 { modelOptions := some { name := some "user", extras := [] } }
          heap := [Snap.opts { name := some "user", extras := [] },
            Snap.props []] }).heap)[0]?
      = some (Snap.opts { name := some "user", extras := [] }) ∧
    ((applyOpsS [Op.defAttribute userCtor "email" { type := some attrTypeEx }]
        { store := setMeta [] 0 { modelOptions := some { name := some "user", extras := [] } }
          heap := [Snap.opts { name := some "user", extras := [] },
            Snap.props []] }).heap)[1]?
      = some (Snap.props []) :=
  resolved_snapshots_immutable
    { store := setMeta [] 0 { modelOptions := some { name := some "user", extras := [] } }
      heap := [] }
    { store := setMeta [] 0 { modelOptions := some { name := some "user", extras := [] } }
      heap := [Snap.opts { name := some "user", extras := [] }] }
    { store := setMeta [] 0 { modelOptions := some { name := some "user", extras := [] } }
      heap := [Snap.opts { name := some "user", extras := [] }, Snap.props []] }
    userCtor 0 1 { name := some "user", extras := [] } []
    [Op.defAttribute userCtor "email" { type := some attrTypeEx }]
    rfl rfl rfl rfl

/-- C10: a successful `defineModelOptions` call makes `hasModelOptions` report
true for that constructor, and it stays true under any further sequence of
declaration-store operations: every operation either leaves the model options
metadata alone or replaces it with another defined record, and nothing ever
removes it. -/
theorem defineModelOptions_sets_hasModelOptions (s : Store) (ctor : Ctor) (o : ModelOptions)
    (s' : Store) (hp : ctor.hasPrototype = true)
    (hd : defineModelOptions s ctor o = Except.ok s') :
    hasModelOptions s' ctor = true ∧
    ∀ ops : List Op, hasModelOptions (applyOps ops s') ctor = true := by
  unfold defineModelOptions at hd
  simp only [hp, if_true] at hd
  rw [Except.ok.injEq] at hd
  have hsome : ((getMeta s' ctor.id).modelOptions).isSome = true := by
    rw [← hd, getMeta_setMeta_self]
    rfl
  constructor
  · simp [hasModelOptions, hp, hsome]
  · intro ops
    have hops := applyOps_modelOptions_isSome ops s' ctor.id hsome
    simp [hasModelOptions, hp, hops]

theorem defineModelOptions_sets_hasModelOptions_witness :
    hasModelOptions
      (applyOps [Op.defAttribute userCtor "email" { type := some attrTypeEx }]
        (setMeta [] 0 { modelOptions := some ModelOptions.empty })) userCtor = true :=
  (defineModelOptions_sets_hasModelOptions [] userCtor ModelOptions.empty
      (setMeta [] 0 { modelOptions := some ModelOptions.empty }) rfl rfl).2
    [Op.defAttribute userCtor "email" { type := some attrTypeEx }]

end Modelsafe

